import Mathlib

/-!
Shallow embedding of `core/rawdb/freezer_remote_s3.go` (core-geth remote
S3 ancient-chain freezer) and verification of its specification claims.

Modelling conventions:
* A record (`AncientObjectS3`) keeps its five fields as opaque byte strings.
  The RLP serializer is an external collaborator (spec section 6); decoding
  at `NewAncientObjectS3` and re-encoding at `RLPBytesForKind` are modelled
  as the identity on each field's bytes.
* The remote S3 bucket is modelled by `Remote`: group blobs as a list
  indexed by group index (keys `blocks/%09d.json` are in numeric order for
  the group counts that occur), plus the `index-marker` object as an
  `Option Nat` (its decimal-string encoding is bijective and elided).
* Go's `uint64` is modelled by `Nat`; the two wrap-arounds the code's
  control flow depends on (`items-1` in `TruncateAncients` and
  `uint64(len(target))-1` in `Ancient`) are modelled explicitly with
  `% u64`.  Counter overflow at `2^64` appends is not modelled.
* Methods mutate the receiver in place in Go, so each operation returns
  the (possibly partially) updated state together with the Go error value;
  a Go runtime panic (index out of range) is a distinguished outcome.
* Remote I/O faults: a download of a missing key is the natural `none`
  lookup (S3 `NoSuchKey`).  `Sync` additionally takes a fault schedule
  (`SyncFaults`) for its two kinds of remote writes, since its error
  behaviour is claimed about; other transient faults are not injected.
-/

namespace FreezerS3

/-- Modulus of Go's `uint64` arithmetic. -/
def u64 : Nat := 2 ^ 64

/-- Opaque byte strings (record fields, already-encoded RLP). -/
abbrev Bytes := List Nat

/-- The closed set of freezer field kinds (`freezerHashTable`,
`freezerHeaderTable`, `freezerBodiesTable`, `freezerReceiptTable`,
`freezerDifficultyTable` in the source). -/
inductive Kind where
  | hashK
  | headerK
  | bodyK
  | receiptsK
  | difficultyK
deriving DecidableEq

/-- One ancient record, as stored in a group blob (`AncientObjectS3` in the
source); each field holds the bytes handed to `AppendAncient`. -/
structure AncientObjectS3 where
  hash : Bytes
  header : Bytes
  body : Bytes
  receipts : Bytes
  difficulty : Bytes
deriving DecidableEq

/-- Errors surfaced by the freezer (`errOutOfBounds`, `errNotSupported`,
other transient I/O failures), plus a marker for a Go slice-bounds panic. -/
inductive Err where
  | outOfBounds
  | notSupported
  | ioErr
  | panicSlice
deriving DecidableEq

/-- Outcome of a Go call returning `(value, error)`: a value with nil
error, a non-nil error (value is nil), or a runtime panic. -/
inductive GoResult (α : Type) where
  | ok : α → GoResult α
  | err : Err → GoResult α
  | panics : GoResult α
deriving DecidableEq

/-- The remote S3 bucket contents: group blobs by group index and the
`index-marker` object. -/
structure Remote where
  groups : List (List AncientObjectS3)
  marker : Option Nat
deriving DecidableEq

/-- In-memory freezer state (`freezerRemoteS3` in the source) bundled with
the remote bucket it talks to.  `cache` is the write buffer / backlog,
`retrieved` the read-through cache of the most recently fetched group. -/
structure FreezerState where
  frozen : Nat
  objectGroupSize : Nat
  cache : List AncientObjectS3
  retrieved : List (Nat × AncientObjectS3)
  remote : Remote
deriving DecidableEq

/-- `AncientObjectS3.RLPBytesForKind`: select and re-encode one field; the
serializer round-trip is the identity on the stored bytes. -/
def RLPBytesForKind (o : AncientObjectS3) : Kind → Bytes
  | .hashK => o.hash
  | .headerK => o.header
  | .bodyK => o.body
  | .receiptsK => o.receipts
  | .difficultyK => o.difficulty

/-- `NewAncientObjectS3`: decode the five byte strings into a record
(decoding of well-formed input succeeds and is inverted by
`RLPBytesForKind`). -/
def NewAncientObjectS3 (hashB headerB bodyB receiptsB tdB : Bytes) : AncientObjectS3 :=
  { hash := hashB, header := headerB, body := bodyB, receipts := receiptsB,
    difficulty := tdB }

/-- `objectKeyForN`: group index of sequence number `n`
(`awsKeyBlock(n / f.objectGroupSize)`). -/
def objectKeyForN (gs n : Nat) : Nat := n / gs

/-- Number of records at or above which nothing is flushed remotely:
`frozen - len(cache)` (`remoteHeight` in `Ancient`). -/
def remoteHeight (st : FreezerState) : Nat := st.frozen - st.cache.length

/-- `freezerRemoteS3.Ancient`: serve a point read from (in priority order)
the early not-yet-frozen check, the write buffer, the read-through cache,
or a freshly downloaded group blob (which replaces `retrieved` wholesale).
The bounds check `i > uint64(len(target)) - 1` is computed in wrapping
unsigned arithmetic, exactly as in the source. -/
def Ancient (st : FreezerState) (kind : Kind) (number : Nat) :
    GoResult (Option Bytes) × FreezerState :=
  if st.frozen ≤ number then (.ok none, st)
  else if remoteHeight st ≤ number then
    match st.cache.get? (number - remoteHeight st) with
    | some o => (.ok (some (RLPBytesForKind o kind)), st)
    | none => (.panics, st)
  else
    match List.lookup number st.retrieved with
    | some o => (.ok (some (RLPBytesForKind o kind)), st)
    | none =>
      match st.remote.groups.get? (objectKeyForN st.objectGroupSize number) with
      | none => (.err .outOfBounds, st)
      | some target =>
        let start := number - number % st.objectGroupSize
        let st' := { st with retrieved := target.enum.map (fun p => (start + p.1, p.2)) }
        let i := number % st.objectGroupSize
        if i > (target.length + (u64 - 1)) % u64 then (.err .outOfBounds, st')
        else
          match target.get? i with
          | some o => (.ok (some (RLPBytesForKind o kind)), st')
          | none => (.panics, st')

/-- `freezerRemoteS3.Ancients`: the frozen count (cached in `f.frozen`
after construction, so no remote read happens here). -/
def Ancients (st : FreezerState) : Nat × Option Err := (st.frozen, none)

/-- `freezerRemoteS3.HasAncient`: boolean projection of `Ancient`
(`v != nil`). -/
def HasAncient (st : FreezerState) (kind : Kind) (number : Nat) :
    GoResult Bool × FreezerState :=
  match Ancient st kind number with
  | (.ok v, st') => (.ok v.isSome, st')
  | (.err e, st') => (.err e, st')
  | (.panics, st') => (.panics, st')

/-- `freezerRemoteS3.AppendAncient`: build the record and append it to the
write buffer, incrementing the frozen count.  The caller-supplied `number`
is never compared against the current frozen count — faithful to the
source, where no such validation exists. -/
def AppendAncient (st : FreezerState) (number : Nat)
    (hashB headerB bodyB receiptsB tdB : Bytes) : FreezerState × Option Err :=
  let o := NewAncientObjectS3 hashB headerB bodyB receiptsB tdB
  ({ st with cache := st.cache ++ [o], frozen := st.frozen + 1 }, none)

/-- Fault schedule for the two kinds of remote writes `Sync` performs. -/
structure SyncFaults where
  uploadFails : Bool
  markerPutFails : Bool
deriving DecidableEq

/-- A remote write performed by `Sync`: a group-blob upload or an
index-marker put. -/
inductive RemoteWrite where
  | putGroup : Nat → List AncientObjectS3 → RemoteWrite
  | putMarker : Nat → RemoteWrite
deriving DecidableEq

/-- S3 `PutObject` of a group blob: overwrite the key if present, create
it otherwise. -/
def setGroup (gl : List (List AncientObjectS3)) (g : Nat)
    (b : List AncientObjectS3) : List (List AncientObjectS3) :=
  if g < gl.length then gl.set g b
  else gl ++ List.replicate (g - gl.length) [] ++ [b]

/-- Apply a batch of group uploads in order. -/
def applyUploads (gl : List (List AncientObjectS3)) :
    List (Nat × List AncientObjectS3) → List (List AncientObjectS3)
  | [] => gl
  | (g, b) :: rest => applyUploads (setGroup gl g b) rest

/-- Fuelled recursion underlying `buildUploads` (structural, so that it
evaluates inside the kernel); the fuel is always instantiated with the
list's length, which bounds the number of sealed sets. -/
def buildUploadsGo (gs : Nat) : Nat → Nat → List AncientObjectS3 →
    List (Nat × List AncientObjectS3)
  | _, _, [] => []
  | startN, fuel + 1, l =>
    if l.length ≤ gs ∨ gs = 0 then [((startN + l.length - 1) / gs, l)]
    else ((startN + gs - 1) / gs, l.take gs) ::
      buildUploadsGo gs (startN + gs) fuel (l.drop gs)
  | _, 0, _ => []

/-- The batch of uploads `Sync`'s loop seals: consecutive sets of
`objectGroupSize` records plus a trailing partial set, the set ending at
loop index `i` keyed by `objectKeyForN(cacheStartN + i)`.  A group size of
`0` would make the Go code divide by zero; it is outside the modelled
domain (theorems assume `0 < gs`). -/
def buildUploads (gs startN : Nat) (l : List AncientObjectS3) :
    List (Nat × List AncientObjectS3) :=
  buildUploadsGo gs startN l.length l

/-- `freezerRemoteS3.Sync`: no-op on an empty buffer; otherwise upload the
sealed groups, then trim the buffer to `len mod groupSize` leftovers, then
persist the index marker (`setIndexMarker(frozen)`) — in exactly that
order, so a failing marker put leaves the buffer already trimmed.  Returns
the updated state, the Go error, and the remote writes performed. -/
def Sync (st : FreezerState) (fl : SyncFaults) :
    FreezerState × Option Err × List RemoteWrite :=
  if st.cache.length = 0 then (st, none, [])
  else
    let lenCache := st.cache.length
    let cacheStartN := st.frozen - lenCache
    let uploads := buildUploads st.objectGroupSize cacheStartN st.cache
    if fl.uploadFails then (st, some .ioErr, [])
    else
      let remote1 : Remote :=
        { st.remote with groups := applyUploads st.remote.groups uploads }
      let rem := lenCache % st.objectGroupSize
      let st1 : FreezerState :=
        { st with remote := remote1, cache := st.cache.drop (lenCache - rem) }
      let ws := uploads.map (fun u => RemoteWrite.putGroup u.1 u.2)
      if fl.markerPutFails then (st1, some .ioErr, ws)
      else ({ st1 with remote := { remote1 with marker := some st.frozen } },
            none, ws ++ [RemoteWrite.putMarker st.frozen])

/-- `freezerRemoteS3.TruncateAncients`: trim the buffer in place when the
target falls inside it; otherwise download the group containing
`items - 1` (uint64 subtraction, wrapping at `items = 0`) into the buffer,
keep its `items mod groupSize` survivors, delete every remote key strictly
after `objectKeyForN(items)` (S3 `ListObjects` `Marker` is exclusive; this
also removes the `index-marker` object, which is immediately rewritten),
persist the marker, and set the frozen count.  A Go slice operation whose
bound exceeds the length is the `panicSlice` outcome. -/
def TruncateAncients (st : FreezerState) (items : Nat) :
    FreezerState × Option Err :=
  if st.frozen - st.cache.length ≤ items then
    let index := items - (st.frozen - st.cache.length)
    if index ≤ st.cache.length then
      ({ st with cache := st.cache.take index, frozen := items }, none)
    else (st, some .panicSlice)
  else
    match st.remote.groups.get?
        (objectKeyForN st.objectGroupSize ((items + (u64 - 1)) % u64)) with
    | none => (st, some .outOfBounds)
    | some b =>
      if items % st.objectGroupSize ≤ b.length then
        ({ st with
            cache := b.take (items % st.objectGroupSize),
            remote := { groups :=
                          st.remote.groups.take
                            (objectKeyForN st.objectGroupSize items + 1),
                        marker := some items },
            frozen := items }, none)
      else ({ st with cache := b }, some .panicSlice)

/-- `freezerRemoteS3.repair`: the entire reconciliation body is commented
out in the source; the method returns `nil` without reading or writing any
state. -/
def repair (st : FreezerState) : FreezerState × Option Err := (st, none)

/-- `freezerRemoteS3.initCache`: download the group blob
`objectKeyForN(n)` into the write buffer; a missing key is
`errOutOfBounds`. -/
def initCache (st : FreezerState) (n : Nat) : FreezerState × Option Err :=
  match st.remote.groups.get? (objectKeyForN st.objectGroupSize n) with
  | none => (st, some .outOfBounds)
  | some b => ({ st with cache := b }, none)

/-- `newFreezerRemoteS3`: recover the frozen count from the index marker
(absence means `0`), then, when it is positive, seed the write buffer via
`initCache`; a failing `initCache` fails construction. -/
def newFreezerRemoteS3 (gs : Nat) (remote : Remote) : GoResult FreezerState :=
  let n := match remote.marker with | none => 0 | some m => m
  let st1 : FreezerState :=
    { frozen := n, objectGroupSize := gs, cache := [], retrieved := [],
      remote := remote }
  if 0 < n then
    match initCache st1 n with
    | (_, some e) => .err e
    | (st2, none) => .ok st2
  else .ok st1

/-- A freshly constructed freezer over an empty bucket. -/
def emptyState (gs : Nat) : FreezerState :=
  { frozen := 0, objectGroupSize := gs, cache := [], retrieved := [],
    remote := { groups := [], marker := none } }

/-- The fault-free schedule for `Sync`. -/
def noFaults : SyncFaults := ⟨false, false⟩

/-- Append one record whose five fields each hold the single byte `k`
(also passing `k` as the sequence-number argument). -/
def appendK (st : FreezerState) (k : Nat) : FreezerState :=
  (AppendAncient st k [k] [k] [k] [k] [k]).1

/-- Scenario state: group size 2, records `0,1,2` appended and synced
(remote holds groups `[0,1]` and `[2]`, buffer holds `2`). -/
def c1AfterSync : FreezerState :=
  (Sync (appendK (appendK (appendK (emptyState 2) 0) 1) 2) noFaults).1

/-- Scenario state: after reading record `0`, which loads group `0` into
the read-through cache (entries for sequence numbers `0` and `1`). -/
def c1AfterRead : FreezerState := (Ancient c1AfterSync Kind.hashK 0).2

/-- Scenario state: after truncating to `1` (deep branch; the read-through
cache entries survive untouched). -/
def c1AfterTrunc : FreezerState := (TruncateAncients c1AfterRead 1).1

/-- Scenario state: a fresh record with bytes `[9]` is appended at
sequence `1` and synced; the read-through cache still maps `1` to the
destroyed record with bytes `[1]`. -/
def c1Final : FreezerState :=
  (Sync (AppendAncient c1AfterTrunc 1 [9] [9] [9] [9] [9]).1 noFaults).1

/-- Remote bucket after appending records `0..3` (group size 2) and
syncing: groups `[0,1]`, `[2,3]` and marker `4`. -/
def c8Remote : Remote :=
  (Sync (appendK (appendK (appendK (appendK (emptyState 2) 0) 1) 2) 3)
    noFaults).1.remote

/-- Crafted state for the empty-group-blob read: one frozen record whose
group blob decodes to an empty array. -/
def c10State : FreezerState :=
  { frozen := 1, objectGroupSize := 32, cache := [], retrieved := [],
    remote := { groups := [[]], marker := none } }

/-- Crafted state for an out-of-range in-group offset over a nonempty
blob: record `1` maps into group `0`, whose blob has a single entry. -/
def c10WitnessState : FreezerState :=
  { frozen := 3, objectGroupSize := 2, cache := [], retrieved := [],
    remote := { groups := [[⟨[5], [5], [5], [5], [5]⟩]], marker := none } }

/-- State with a two-record buffer aligned to one full group, used to
exercise the marker-put failure path of `Sync`. -/
def c4State : FreezerState :=
  { frozen := 2, objectGroupSize := 2,
    cache := [⟨[1], [1], [1], [1], [1]⟩, ⟨[2], [2], [2], [2], [2]⟩],
    retrieved := [], remote := { groups := [], marker := none } }

/-- State with a one-record buffer and a pre-existing marker, used to
exercise the upload failure path of `Sync`. -/
def c4WitnessState : FreezerState :=
  { frozen := 1, objectGroupSize := 2, cache := [⟨[3], [3], [3], [3], [3]⟩],
    retrieved := [], remote := { groups := [], marker := some 7 } }

/-- Post-sync state with a nonempty leftover buffer (records `0,1,2`,
group size 2): the tail record `2` stays buffered after the flush. -/
def c3Base : FreezerState :=
  (Sync (appendK (appendK (appendK (emptyState 2) 0) 1) 2) noFaults).1

/-- Pre-sync state whose buffer is exactly one full group, so the first
sync leaves an empty buffer. -/
def c3WitnessBase : FreezerState := appendK (appendK (emptyState 2) 0) 1

/-- The group-blob list `gl` covers every record below `m`: the blob at
the record's group index exists, contains its in-group offset, and stores
exactly `hist`'s record. -/
def CoversUpTo (gs : Nat) (gl : List (List AncientObjectS3))
    (hist : List AncientObjectS3) (m : Nat) : Prop :=
  ∀ n, n < m → ∃ b, gl.get? (n / gs) = some b ∧
    n % gs < b.length ∧ b.get? (n % gs) = hist.get? n

/-- Record `n` is durable on the remote: its group blob exists, contains
its in-group offset, and stores exactly the record appended for `n`. -/
def Durable (st : FreezerState) (hist : List AncientObjectS3) (n : Nat) : Prop :=
  ∃ b, st.remote.groups.get? (n / st.objectGroupSize) = some b ∧
    n % st.objectGroupSize < b.length ∧
    b.get? (n % st.objectGroupSize) = hist.get? n

/-- The freezer's consistency invariant relative to the history `hist` of
records currently committed (in sequence order): the frozen count equals
the history length, the write buffer is exactly the tail
`[frozen - len(buffer), frozen)` of the history, the flushed prefix below
`frozen - len(buffer)` is group-aligned and durable on the remote, and
the remote holds at least the groups of that prefix. -/
structure Inv (st : FreezerState) (hist : List AncientObjectS3) : Prop where
  gsPos : 0 < st.objectGroupSize
  frozenLen : st.frozen = hist.length
  cacheLe : st.cache.length ≤ st.frozen
  cacheTail : st.cache = hist.drop (st.frozen - st.cache.length)
  aligned : (st.frozen - st.cache.length) % st.objectGroupSize = 0
  glen : (st.frozen - st.cache.length) / st.objectGroupSize ≤
    st.remote.groups.length
  covered : ∀ n, n < st.frozen - st.cache.length → Durable st hist n

/-- States reachable from a fresh freezer by the freezer's operations,
together with the history of records committed so far.  `Sync` may run
under any fault schedule; `TruncateAncients` steps are taken on success
(an erroring truncate either leaves the state unchanged or panics the Go
process), with the target in `uint64` range as the Go signature forces. -/
inductive Reach : FreezerState → List AncientObjectS3 → Prop where
  | init (gs : Nat) (hgs : 0 < gs) : Reach (emptyState gs) []
  | append (st : FreezerState) (hist : List AncientObjectS3) (number : Nat)
      (b1 b2 b3 b4 b5 : Bytes) :
      Reach st hist →
      Reach (AppendAncient st number b1 b2 b3 b4 b5).1
        (hist ++ [NewAncientObjectS3 b1 b2 b3 b4 b5])
  | sync (st : FreezerState) (hist : List AncientObjectS3) (fl : SyncFaults) :
      Reach st hist → Reach (Sync st fl).1 hist
  | truncOk (st : FreezerState) (hist : List AncientObjectS3) (t : Nat)
      (st' : FreezerState) (ht : t < u64) :
      Reach st hist → TruncateAncients st t = (st', none) →
      Reach st' (hist.take t)
  | read (st : FreezerState) (hist : List AncientObjectS3) (kind : Kind)
      (n : Nat) :
      Reach st hist → Reach (Ancient st kind n).2 hist

/-! ## Theorems -/

/-! ### Helper lemmas about the group-upload machinery -/

theorem set_eq_of_get? {α : Type} (l : List α) (n : Nat) (a : α)
    (h : l.get? n = some a) : l.set n a = l := by
  induction l generalizing n with
  | nil => simp at h
  | cons x tl ih =>
    cases n with
    | zero =>
      simp only [List.get?] at h
      cases h
      rfl
    | succ m =>
      simp only [List.get?] at h
      simp only [List.set]
      rw [ih m h]

theorem setGroup_get_self (gl : List (List AncientObjectS3)) (g : Nat)
    (b : List AncientObjectS3) : (setGroup gl g b).get? g = some b := by
  unfold setGroup
  split
  · exact List.get?_set_eq_of_lt b (by assumption)
  · rename_i hng
    have hge : gl.length ≤ g := Nat.le_of_not_lt hng
    have hlen : (gl ++ List.replicate (g - gl.length)
        ([] : List AncientObjectS3)).length = g := by
      simp [List.length_append, List.length_replicate]
      omega
    rw [List.get?_append_right (Nat.le_of_eq hlen), hlen, Nat.sub_self]
    rfl

theorem setGroup_eq_self (gl : List (List AncientObjectS3)) (g : Nat)
    (b : List AncientObjectS3) (h : gl.get? g = some b) : setGroup gl g b = gl := by
  have hlt : g < gl.length := by
    rcases List.get?_eq_some.mp h with ⟨h1, -⟩
    exact h1
  unfold setGroup
  rw [if_pos hlt]
  exact set_eq_of_get? gl g b h

theorem applyUploads_append (gl : List (List AncientObjectS3))
    (us : List (Nat × List AncientObjectS3)) (p : Nat × List AncientObjectS3) :
    applyUploads gl (us ++ [p]) = setGroup (applyUploads gl us) p.1 p.2 := by
  induction us generalizing gl with
  | nil =>
    cases p
    rfl
  | cons q tl ih =>
    cases q
    simpa only [List.cons_append, applyUploads] using ih _

theorem buildUploadsGo_cons (gs startN fuel : Nat) (a : AncientObjectS3)
    (tl : List AncientObjectS3) :
    buildUploadsGo gs startN (fuel + 1) (a :: tl) =
      if (a :: tl).length ≤ gs ∨ gs = 0 then
        [((startN + (a :: tl).length - 1) / gs, a :: tl)]
      else ((startN + gs - 1) / gs, (a :: tl).take gs) ::
        buildUploadsGo gs (startN + gs) fuel ((a :: tl).drop gs) := rfl

theorem mod_add_le_self (a b : Nat) (hb : 0 < b) (h : b ≤ a) : a % b + b ≤ a := by
  have hmd : a % b + b * (a / b) = a := Nat.mod_add_div a b
  have hq : 0 < a / b := Nat.div_pos h hb
  have hbb : b ≤ b * (a / b) := Nat.le_mul_of_pos_right b hq
  omega

theorem sub_mod_self_right (a b : Nat) (h : b ≤ a) : (a - b) % b = a % b := by
  conv_rhs => rw [← Nat.sub_add_cancel h]
  rw [Nat.add_mod_right]

theorem buildUploadsGo_last (gs : Nat) (hgs : 0 < gs) :
    ∀ (fuel : Nat) (l : List AncientObjectS3) (startN : Nat),
      l.length ≤ fuel → l ≠ [] → l.length % gs ≠ 0 →
      ∃ us, buildUploadsGo gs startN fuel l =
        us ++ [((startN + l.length - 1) / gs,
                l.drop (l.length - l.length % gs))] := by
  intro fuel
  induction fuel with
  | zero =>
    intro l startN hle hne _
    exact absurd (List.length_eq_zero.mp (Nat.le_zero.mp hle)) hne
  | succ fuel ih =>
    intro l startN hle hne hmod
    obtain ⟨a, tl, rfl⟩ := List.exists_cons_of_ne_nil hne
    rw [buildUploadsGo_cons]
    by_cases hsm : (a :: tl).length ≤ gs ∨ gs = 0
    · rw [if_pos hsm]
      have hlt : (a :: tl).length < gs := by
        rcases hsm with hsm | hsm
        · rcases Nat.lt_or_ge (a :: tl).length gs with h | h
          · exact h
          · exfalso
            have heq : (a :: tl).length = gs := Nat.le_antisymm hsm h
            rw [heq, Nat.mod_self] at hmod
            exact hmod rfl
        · omega
      have hlen : (a :: tl).length % gs = (a :: tl).length := Nat.mod_eq_of_lt hlt
      refine ⟨[], ?_⟩
      rw [hlen, Nat.sub_self, List.drop_zero, List.nil_append]
    · rw [if_neg hsm]
      push_neg at hsm
      obtain ⟨hgt', -⟩ := hsm
      have h1 : ((a :: tl).drop gs).length ≤ fuel := by
        rw [List.length_drop]
        omega
      have h2 : (a :: tl).drop gs ≠ [] := by
        intro hnil
        have hcg := congrArg List.length hnil
        rw [List.length_drop, List.length_nil] at hcg
        omega
      have h3 : ((a :: tl).drop gs).length % gs = (a :: tl).length % gs := by
        rw [List.length_drop]
        exact sub_mod_self_right _ _ (Nat.le_of_lt hgt')
      obtain ⟨us, hus⟩ := ih ((a :: tl).drop gs) (startN + gs) h1 h2
        (by rw [h3]; exact hmod)
      refine ⟨((startN + gs - 1) / gs, (a :: tl).take gs) :: us, ?_⟩
      rw [hus, List.cons_append]
      have hml : (a :: tl).length % gs + gs ≤ (a :: tl).length :=
        mod_add_le_self _ _ hgs (Nat.le_of_lt hgt')
      have hkey : startN + gs + ((a :: tl).drop gs).length - 1 =
          startN + (a :: tl).length - 1 := by
        rw [List.length_drop]
        omega
      have hdrop : ((a :: tl).drop gs).drop
            (((a :: tl).drop gs).length - ((a :: tl).drop gs).length % gs) =
          (a :: tl).drop ((a :: tl).length - (a :: tl).length % gs) := by
        rw [List.drop_drop, h3, List.length_drop]
        congr 1
        omega
      rw [hkey, hdrop]

/-- A state is a fixpoint of fault-free `Sync` whenever its buffer is a
nonempty partial group already stored under the group key of record
`frozen - 1` and the marker already equals the frozen count: the re-run
re-uploads identical content and rewrites the same marker. -/
theorem sync_fixpoint (s : FreezerState) (hgs : 0 < s.objectGroupSize)
    (hlen : s.cache.length < s.objectGroupSize)
    (hne : s.cache ≠ [])
    (hle : s.cache.length ≤ s.frozen)
    (hgrp : s.remote.groups.get? ((s.frozen - 1) / s.objectGroupSize) =
      some s.cache)
    (hmk : s.remote.marker = some s.frozen) :
    Sync s noFaults = (s, none,
      [RemoteWrite.putGroup ((s.frozen - 1) / s.objectGroupSize) s.cache,
       RemoteWrite.putMarker s.frozen]) := by
  obtain ⟨a, tl, hcons⟩ := List.exists_cons_of_ne_nil hne
  have hpos : 0 < s.cache.length := List.length_pos.mpr hne
  have hrem : s.cache.length % s.objectGroupSize = s.cache.length :=
    Nat.mod_eq_of_lt hlen
  have hkey : s.frozen - s.cache.length + s.cache.length - 1 = s.frozen - 1 := by
    omega
  have hbuild : buildUploads s.objectGroupSize (s.frozen - s.cache.length)
      s.cache = [((s.frozen - 1) / s.objectGroupSize, s.cache)] := by
    unfold buildUploads
    conv_lhs => rw [hcons, List.length_cons]
    rw [buildUploadsGo_cons]
    rw [if_pos (Or.inl (by rw [← hcons]; exact Nat.le_of_lt hlen))]
    rw [← hcons]
    have hlc : s.cache.length = tl.length + 1 := by rw [hcons]; rfl
    rw [show s.frozen - (tl.length + 1) + s.cache.length - 1 = s.frozen - 1 by omega]
  unfold Sync
  rw [if_neg (by omega)]
  simp only [noFaults, hbuild, applyUploads, hrem, Nat.sub_self, List.drop_zero,
    List.map_cons, List.map_nil, Bool.false_eq_true, if_false,
    setGroup_eq_self _ _ _ hgrp, List.nil_append, List.cons_append]
  rw [← hmk]

/-- C3 (counterexample): with group size 2, append records `0,1,2` and
sync; the buffer retains record `2`.  A second fault-free `Sync` with no
intervening append succeeds and leaves the state unchanged, but it does
perform remote writes: it re-uploads the partial group `1` and rewrites
the index marker — refuting "performs no remote writes". -/
theorem second_sync_performs_writes :
    (Sync c3Base noFaults).2.1 = none ∧
    (Sync c3Base noFaults).1 = c3Base ∧
    (Sync c3Base noFaults).2.2 =
      [RemoteWrite.putGroup 1 [⟨[2], [2], [2], [2], [2]⟩],
       RemoteWrite.putMarker 3] ∧
    (Sync c3Base noFaults).2.2 ≠ [] := by decide

/-- C3 (amended): after a successful fault-free `Sync`, a second
fault-free `Sync` with no intervening append returns success and leaves
the freezer state (buffer, frozen count, remote groups and marker)
unchanged; it performs no remote writes exactly when the first sync left
the buffer empty (frozen count a multiple of the group size) — otherwise
it re-uploads the trailing partial group and rewrites the marker with
identical contents. -/
theorem sync_idempotent_amended (st st' : FreezerState) (w : List RemoteWrite)
    (hgs : 0 < st.objectGroupSize) (hle : st.cache.length ≤ st.frozen)
    (h : Sync st noFaults = (st', none, w)) :
    ∃ w2, Sync st' noFaults = (st', none, w2) ∧ (w2 = [] ↔ st'.cache = []) := by
  by_cases hc : st.cache.length = 0
  · unfold Sync at h
    rw [if_pos hc] at h
    simp only [Prod.mk.injEq] at h
    obtain ⟨h1, -, -⟩ := h
    subst h1
    refine ⟨[], ?_, ?_⟩
    · unfold Sync
      rw [if_pos hc]
    · simp [List.length_eq_zero.mp hc]
  · unfold Sync at h
    rw [if_neg hc] at h
    simp only [noFaults, Bool.false_eq_true, if_false, Prod.mk.injEq] at h
    obtain ⟨h1, -, -⟩ := h
    subst h1
    have hrlt : st.cache.length % st.objectGroupSize < st.objectGroupSize :=
      Nat.mod_lt _ hgs
    have hrle : st.cache.length % st.objectGroupSize ≤ st.cache.length :=
      Nat.mod_le _ _
    by_cases hrem : st.cache.length % st.objectGroupSize = 0
    · -- the whole buffer was flushed: the new buffer is empty
      have hcache : st.cache.drop
          (st.cache.length - st.cache.length % st.objectGroupSize) = [] := by
        rw [hrem, Nat.sub_zero]
        exact List.drop_length st.cache
      refine ⟨[], ?_, ?_⟩
      · unfold Sync
        dsimp only
        rw [if_pos (by rw [hcache]; rfl)]
      · dsimp only
        rw [hcache]
        simp
    · -- a partial group remains: apply the fixpoint lemma
      obtain ⟨us, hus⟩ := buildUploadsGo_last st.objectGroupSize hgs
        st.cache.length st.cache (st.frozen - st.cache.length) (Nat.le_refl _)
        (by intro hnil; rw [hnil] at hc; exact hc rfl) hrem
      have hus' : buildUploads st.objectGroupSize (st.frozen - st.cache.length)
          st.cache = us ++
            [((st.frozen - 1) / st.objectGroupSize,
              st.cache.drop
                (st.cache.length - st.cache.length % st.objectGroupSize))] := by
        unfold buildUploads
        rw [hus]
        have hkey : st.frozen - st.cache.length + st.cache.length - 1 =
            st.frozen - 1 := by
          have : 0 < st.cache.length := Nat.pos_of_ne_zero hc
          omega
        rw [hkey]
      refine ⟨_, sync_fixpoint _ hgs
          (by dsimp only; rw [List.length_drop]; omega)
          (by
            dsimp only
            intro hnil
            have hcg := congrArg List.length hnil
            rw [List.length_drop, List.length_nil] at hcg
            omega)
          (by dsimp only; rw [List.length_drop]; omega)
          (by
            dsimp only
            rw [hus', applyUploads_append]
            exact setGroup_get_self _ _ _)
          rfl, ?_⟩
      constructor
      · intro hw
        exact absurd hw (List.cons_ne_nil _ _)
      · intro hw
        exfalso
        have hcg := congrArg List.length hw
        rw [List.length_drop, List.length_nil] at hcg
        omega

/-- C2: `AppendAncient` never validates the caller-supplied sequence
number.  On a fresh freezer (frozen count `0`), appending with
`number = 5` succeeds (`nil` error), appends to the buffer and increments
the frozen count — the out-of-sequence call is silently accepted, not
rejected, contradicting the claim (and the source's own comment that
"all out-of-order injection will be rejected"). -/
theorem appendAncient_accepts_out_of_sequence :
    (emptyState 32).frozen = 0 ∧
    (AppendAncient (emptyState 32) 5 [1] [1] [1] [1] [1]).2 = none ∧
    (AppendAncient (emptyState 32) 5 [1] [1] [1] [1] [1]).1.frozen = 1 ∧
    (AppendAncient (emptyState 32) 5 [1] [1] [1] [1] [1]).1.cache ≠ [] := by
  decide

/-- C9: `repair` is a silent no-op.  For every state it returns `nil`
without examining or changing anything (its reconciliation body is
commented out in the source), contradicting the claim that it performs a
real reconciliation. -/
theorem repair_silent_noop (st : FreezerState) : repair st = (st, none) := rfl

/-- C5 (counterexample): on a fresh freezer, `Ancient` for a number at or
above the frozen count returns `nil` data with a `nil` error — a
successful return of empty data, not an error-distinguished NotFound
result as the claim states. -/
theorem ancient_beyond_frozen_is_nil_success :
    (Ancient (emptyState 32) Kind.headerK 0).1 = GoResult.ok none ∧
    (Ancient (emptyState 32) Kind.headerK 0).1 ≠ GoResult.err Err.outOfBounds := by
  decide

/-- C5 (amended): for every field kind and every `number ≥ frozen count`,
`Ancient` returns `(nil, nil)` — no data and no error — and `HasAncient`
maps this to `false`; absence is signalled by the nil value, not by a
distinguished error. -/
theorem ancient_beyond_frozen_returns_nil_nil (st : FreezerState)
    (kind : Kind) (n : Nat) (h : st.frozen ≤ n) :
    Ancient st kind n = (GoResult.ok none, st) ∧
    HasAncient st kind n = (GoResult.ok false, st) := by
  refine ⟨?_, ?_⟩
  · simp [Ancient, h]
  · simp [HasAncient, Ancient, h]

/-- C5 (witness): the amended statement evaluated on a fresh freezer at
`number = 0`. -/
theorem ancient_beyond_frozen_returns_nil_nil_witness :
    Ancient (emptyState 32) Kind.hashK 0 = (GoResult.ok none, emptyState 32) ∧
    HasAncient (emptyState 32) Kind.hashK 0 = (GoResult.ok false, emptyState 32) :=
  ancient_beyond_frozen_returns_nil_nil (emptyState 32) Kind.hashK 0 (by decide)

/-- C6: after a successful `TruncateAncients t` (either the in-buffer trim
or the deep remote branch), `Ancients` reports exactly `t` and `Ancient`
yields the freezer's not-found outcome (nil data, nil error) for every
field kind and every `m ≥ t`. -/
theorem truncate_semantics (st : FreezerState) (t : Nat) (st' : FreezerState)
    (h : TruncateAncients st t = (st', none)) :
    (Ancients st').1 = t ∧
    ∀ (kind : Kind) (m : Nat), t ≤ m → (Ancient st' kind m).1 = GoResult.ok none := by
  have hf : st'.frozen = t := by
    simp only [TruncateAncients] at h
    split at h
    · split at h
      · simp only [Prod.mk.injEq] at h
        obtain ⟨h1, -⟩ := h
        rw [← h1]
      · simp at h
    · split at h
      · simp at h
      · split at h
        · simp only [Prod.mk.injEq] at h
          obtain ⟨h1, -⟩ := h
          rw [← h1]
        · simp at h
  refine ⟨hf, fun kind m hm => ?_⟩
  have : st'.frozen ≤ m := hf ▸ hm
  simp [Ancient, this]

/-- C6 (witness): truncating a two-record freezer to `1` leaves
`Ancients = 1` and a not-found read at `m = 5`. -/
theorem truncate_semantics_witness :
    (Ancients (TruncateAncients (appendK (appendK (emptyState 32) 0) 1) 1).1).1 = 1 ∧
    (Ancient (TruncateAncients (appendK (appendK (emptyState 32) 0) 1) 1).1
        Kind.bodyK 5).1 = GoResult.ok none := by
  have h := truncate_semantics (appendK (appendK (emptyState 32) 0) 1) 1
    (TruncateAncients (appendK (appendK (emptyState 32) 0) 1) 1).1 (by decide)
  exact ⟨h.1, h.2 Kind.bodyK 5 (by decide)⟩

/-- C10 (counterexample): with a remote group blob that decodes to an
empty array, the unsigned bounds check `i > uint64(len(target)) - 1`
underflows to `2^64 - 1`, passes, and the subsequent indexing panics —
`Ancient` does not return the out-of-bounds error the claim promises for
the empty-array case. -/
theorem ancient_empty_group_panics :
    (Ancient c10State Kind.hashK 0).1 = GoResult.panics := by decide

/-- C10 (amended): when `Ancient` reaches the remote fetch and the decoded
group array does not contain the queried in-group offset, the outcome
splits: a nonempty array yields the out-of-bounds error (the underflow is
harmless there), while an empty array defeats the check and the indexing
panics. -/
theorem ancient_group_bounds_amended (st : FreezerState) (kind : Kind)
    (number : Nat) (target : List AncientObjectS3)
    (hn : number < st.frozen)
    (hb : number < remoteHeight st)
    (hr : List.lookup number st.retrieved = none)
    (hg : st.remote.groups.get? (objectKeyForN st.objectGroupSize number) = some target)
    (hw : number < u64) :
    (target ≠ [] → target.length < u64 →
      target.length ≤ number % st.objectGroupSize →
      (Ancient st kind number).1 = GoResult.err Err.outOfBounds) ∧
    (target = [] → (Ancient st kind number).1 = GoResult.panics) := by
  have h1 : ¬ st.frozen ≤ number := by omega
  have h2 : ¬ remoteHeight st ≤ number := by omega
  have hg' : st.remote.groups[objectKeyForN st.objectGroupSize number]? = some target := by
    rw [← List.get?_eq_getElem?]; exact hg
  have hu : 0 < u64 := by decide
  refine ⟨fun hne hlt hle => ?_, fun hemp => ?_⟩
  · have hpos : 0 < target.length := List.length_pos.mpr hne
    have hmod : (target.length + (u64 - 1)) % u64 = target.length - 1 := by
      have : target.length + (u64 - 1) = (target.length - 1) + u64 := by omega
      rw [this, Nat.add_mod_right, Nat.mod_eq_of_lt (by omega)]
    have hgt : (target.length + (u64 - 1)) % u64 < number % st.objectGroupSize := by
      rw [hmod]; omega
    simp [Ancient, h1, h2, hr, hg, hg', hgt]
  · subst hemp
    have hmodle : number % st.objectGroupSize ≤ number := Nat.mod_le _ _
    have hngt : ¬ (u64 - 1 < number % st.objectGroupSize) := by omega
    simp [Ancient, h1, h2, hr, hg, hg', hngt,
      Nat.mod_eq_of_lt (show u64 - 1 < u64 by omega)]

/-- C10 (witness): the amended statement evaluated where group `0` holds a
single entry and record `1` maps to offset `1`: the out-of-bounds error is
returned. -/
theorem ancient_group_bounds_amended_witness :
    (Ancient c10WitnessState Kind.hashK 1).1 = GoResult.err Err.outOfBounds :=
  (ancient_group_bounds_amended c10WitnessState Kind.hashK 1
      [⟨[5], [5], [5], [5], [5]⟩] (by decide) (by decide) (by decide)
      (by decide) (by decide)).1 (by decide) (by decide) (by decide)

/-- C4 (counterexample): with a full-group buffer and a failing
index-marker put, `Sync` uploads the group, trims the buffer to empty and
only then fails — it returns an error yet the write buffer has changed,
so an aborted `Sync` does not leave the buffer unchanged. -/
theorem sync_marker_failure_trims_buffer :
    (Sync c4State ⟨false, true⟩).2.1 = some Err.ioErr ∧
    (Sync c4State ⟨false, true⟩).1.cache = [] ∧
    c4State.cache ≠ [] := by decide

/-- C4 (amended): `Sync` persists the marker and trims the buffer only
after every upload succeeded; any erroring `Sync` leaves the index marker
unchanged, and an upload failure leaves the whole state unchanged with no
remote writes — but a marker-put failure happens after the buffer is
already trimmed (see the counterexample), so only the marker, not the
buffer, is guaranteed on error. -/
theorem sync_error_preserves_marker (st : FreezerState) (fl : SyncFaults)
    (st' : FreezerState) (e : Err) (w : List RemoteWrite)
    (h : Sync st fl = (st', some e, w)) :
    st'.remote.marker = st.remote.marker ∧
    (fl.uploadFails = true → st' = st ∧ w = []) := by
  unfold Sync at h
  split at h
  · simp at h
  · split at h
    · simp only [Prod.mk.injEq] at h
      obtain ⟨h1, -, h3⟩ := h
      subst h1
      exact ⟨rfl, fun _ => ⟨rfl, h3.symm⟩⟩
    · split at h
      · simp only [Prod.mk.injEq] at h
        obtain ⟨h1, -, -⟩ := h
        subst h1
        refine ⟨rfl, fun hu => ?_⟩
        simp_all
      · simp at h

/-- C4 (witness): the amended statement evaluated on an upload failure:
the marker (value `7`) and the whole state are unchanged. -/
theorem sync_error_preserves_marker_witness :
    (Sync c4WitnessState ⟨true, false⟩).1.remote.marker =
      c4WitnessState.remote.marker ∧
    (Sync c4WitnessState ⟨true, false⟩).1 = c4WitnessState :=
  have h := sync_error_preserves_marker c4WitnessState ⟨true, false⟩
    (Sync c4WitnessState ⟨true, false⟩).1 Err.ioErr [] (by decide)
  ⟨h.1, (h.2 rfl).1⟩

/-- C1: the read path can return bytes that were never the current content
of the queried sequence number.  Concretely (group size 2): append records
`0,1,2` with field bytes `[0],[1],[2]`, sync, read record `0` (this caches
group `0` in `retrieved`), truncate to `1`, append a replacement record
with bytes `[9]` at sequence `1`, sync.  `Ancient(hash, 1)` then serves
`[1]` — the destroyed pre-truncation record — from the stale read-through
cache (`TruncateAncients` never invalidates `f.retrieved`), not the `[9]`
that was appended for sequence `1`. -/
theorem ancient_stale_cache_after_truncate :
    (TruncateAncients c1AfterRead 1).2 = none ∧
    (Ancient c1Final Kind.hashK 1).1 = GoResult.ok (some [1]) ∧
    (Ancient c1Final Kind.hashK 1).1 ≠ GoResult.ok (some [9]) := by decide

/-- C8: reconstruction after restart fails whenever the synced record
count is an exact multiple of the group size.  With group size 2, after
appending records `0..3` and syncing, the remote holds marker `4` and two
full groups; `newFreezerRemoteS3` then calls `initCache(4)`, which
downloads the nonexistent group `4/2 = 2` and aborts construction with the
out-of-bounds error — no freezer state is recovered, contradicting the
round-trip claim. -/
theorem restart_fails_on_group_multiple :
    c8Remote.marker = some 4 ∧
    newFreezerRemoteS3 2 c8Remote = GoResult.err Err.outOfBounds := by decide


/-- C3 (witness): the amended statement evaluated where the first sync
flushes exactly one full group, leaving an empty buffer: the second sync
performs no writes. -/
theorem sync_idempotent_amended_witness :
    ∃ w2, Sync (Sync c3WitnessBase noFaults).1 noFaults =
        ((Sync c3WitnessBase noFaults).1, none, w2) ∧
      (w2 = [] ↔ (Sync c3WitnessBase noFaults).1.cache = []) :=
  sync_idempotent_amended c3WitnessBase (Sync c3WitnessBase noFaults).1
    (Sync c3WitnessBase noFaults).2.2 (by decide) (by decide) (by decide)

/-! ### Invariant preservation -/

theorem inv_init (gs : Nat) (hgs : 0 < gs) : Inv (emptyState gs) [] := by
  refine ⟨hgs, rfl, Nat.le_refl _, rfl, ?_, ?_, ?_⟩
  · simp [emptyState]
  · simp [emptyState]
  · intro n hn
    exact absurd hn (by simp [emptyState])

theorem inv_retrieved (st : FreezerState) (hist : List AncientObjectS3)
    (r : List (Nat × AncientObjectS3)) (h : Inv st hist) :
    Inv { st with retrieved := r } hist :=
  ⟨h.gsPos, h.frozenLen, h.cacheLe, h.cacheTail, h.aligned, h.glen, h.covered⟩

theorem ancient_state_shape (st : FreezerState) (kind : Kind) (n : Nat) :
    ∃ r, (Ancient st kind n).2 = { st with retrieved := r } := by
  simp only [Ancient]
  split
  · exact ⟨st.retrieved, rfl⟩
  · split
    · split
      · exact ⟨st.retrieved, rfl⟩
      · exact ⟨st.retrieved, rfl⟩
    · split
      · exact ⟨st.retrieved, rfl⟩
      · split
        · exact ⟨st.retrieved, rfl⟩
        · split
          · exact ⟨_, rfl⟩
          · split
            · exact ⟨_, rfl⟩
            · exact ⟨_, rfl⟩

theorem inv_read (st : FreezerState) (hist : List AncientObjectS3)
    (kind : Kind) (n : Nat) (h : Inv st hist) :
    Inv (Ancient st kind n).2 hist := by
  obtain ⟨r, hr⟩ := ancient_state_shape st kind n
  rw [hr]
  exact inv_retrieved st hist r h

theorem inv_append (st : FreezerState) (hist : List AncientObjectS3)
    (number : Nat) (b1 b2 b3 b4 b5 : Bytes) (h : Inv st hist) :
    Inv (AppendAncient st number b1 b2 b3 b4 b5).1
      (hist ++ [NewAncientObjectS3 b1 b2 b3 b4 b5]) := by
  have hfl := h.frozenLen
  have hcl := h.cacheLe
  simp only [AppendAncient]
  have hlen : (st.cache ++ [NewAncientObjectS3 b1 b2 b3 b4 b5]).length =
      st.cache.length + 1 := by simp
  refine ⟨h.gsPos, ?_, ?_, ?_, ?_, ?_, ?_⟩
  · simp [hfl]
  · simp only [hlen]
    omega
  · simp only [hlen, Nat.succ_sub_succ]
    rw [List.drop_append_eq_append_drop,
      show st.frozen - st.cache.length - hist.length = 0 by omega,
      List.drop_zero, ← h.cacheTail]
  · simp only [hlen, Nat.succ_sub_succ]
    exact h.aligned
  · simp only [hlen, Nat.succ_sub_succ]
    exact h.glen
  · intro n hn
    simp only [hlen, Nat.succ_sub_succ] at hn
    obtain ⟨b, hb1, hb2, hb3⟩ := h.covered n hn
    refine ⟨b, hb1, hb2, ?_⟩
    rw [List.get?_append (show n < hist.length by omega)]
    exact hb3

theorem setGroup_length (gl : List (List AncientObjectS3)) (g : Nat)
    (b : List AncientObjectS3) :
    (setGroup gl g b).length = max gl.length (g + 1) := by
  unfold setGroup
  split
  · rename_i hlt
    rw [List.length_set]
    omega
  · rename_i hge
    simp only [List.length_append, List.length_replicate, List.length_cons,
      List.length_nil]
    omega

theorem setGroup_get_ne (gl : List (List AncientObjectS3)) (g i : Nat)
    (b : List AncientObjectS3) (hne : i ≠ g) (hlt : i < gl.length) :
    (setGroup gl g b).get? i = gl.get? i := by
  unfold setGroup
  split
  · exact List.get?_set_ne b gl (Ne.symm hne)
  · rw [List.get?_append
      (by rw [List.length_append, List.length_replicate]; omega),
      List.get?_append hlt]

theorem coversUpTo_mono (gs : Nat) (gl : List (List AncientObjectS3))
    (hist : List AncientObjectS3) (m m' : Nat) (hle : m' ≤ m)
    (h : CoversUpTo gs gl hist m) : CoversUpTo gs gl hist m' :=
  fun n hn => h n (Nat.lt_of_lt_of_le hn hle)

theorem coversUpTo_setGroup_full (gs : Nat) (hgs : 0 < gs)
    (hist : List AncientObjectS3) (gl : List (List AncientObjectS3))
    (q : Nat) (c : List AncientObjectS3)
    (hcle : c.length ≤ gs)
    (hq : q ≤ gl.length)
    (hcov : CoversUpTo gs gl hist (gs * q))
    (hslice : ∀ j, j < c.length → c.get? j = hist.get? (gs * q + j)) :
    CoversUpTo gs (setGroup gl q c) hist (gs * q + c.length) := by
  intro n hn
  by_cases hlt : n < gs * q
  · obtain ⟨b, hb1, hb2, hb3⟩ := hcov n hlt
    have hdivlt : n / gs < q := by
      rw [Nat.div_lt_iff_lt_mul hgs, Nat.mul_comm]
      exact hlt
    have hblt : n / gs < gl.length := by
      rcases List.get?_eq_some.mp hb1 with ⟨hl, -⟩
      exact hl
    refine ⟨b, ?_, hb2, hb3⟩
    rw [setGroup_get_ne gl q (n / gs) c (Nat.ne_of_lt hdivlt) hblt]
    exact hb1
  · have hge : gs * q ≤ n := Nat.le_of_not_lt hlt
    have hsplit : n = gs * q + (n - gs * q) := by omega
    have hrlt : n - gs * q < gs := by omega
    have hdiv : n / gs = q := by
      conv_lhs => rw [hsplit]
      rw [Nat.mul_add_div hgs, Nat.div_eq_of_lt hrlt, Nat.add_zero]
    have hmod : n % gs = n - gs * q := by
      conv_lhs => rw [hsplit]
      rw [Nat.mul_add_mod, Nat.mod_eq_of_lt hrlt]
    refine ⟨c, ?_, ?_, ?_⟩
    · rw [hdiv]
      exact setGroup_get_self gl q c
    · rw [hmod]
      omega
    · rw [hmod, hslice (n - gs * q) (by omega), ← hsplit]

theorem coversUpTo_glen (gs : Nat) (hgs : 0 < gs)
    (gl : List (List AncientObjectS3)) (hist : List AncientObjectS3)
    (m : Nat) (hm : m % gs = 0) (hcov : CoversUpTo gs gl hist m) :
    m / gs ≤ gl.length := by
  by_cases h0 : m = 0
  · simp [h0]
  · obtain ⟨b, hb1, -, -⟩ := hcov (m - 1) (by omega)
    have hlt : (m - 1) / gs < gl.length := by
      rcases List.get?_eq_some.mp hb1 with ⟨hl, -⟩
      exact hl
    have hq : gs * (m / gs) = m := by
      have := Nat.div_add_mod m gs
      omega
    have hq1 : 1 ≤ m / gs := by
      rcases Nat.eq_zero_or_pos (m / gs) with h | h
      · rw [h, Nat.mul_zero] at hq
        omega
      · exact h
    have hm1 : m - 1 = gs * (m / gs - 1) + (gs - 1) := by
      have hgm : gs * (m / gs - 1) + gs = gs * (m / gs) := by
        rw [← Nat.mul_succ]
        congr 1
        omega
      omega
    have hdm : (m - 1) / gs = m / gs - 1 := by
      rw [hm1, Nat.mul_add_div hgs,
        Nat.div_eq_of_lt (show gs - 1 < gs by omega), Nat.add_zero]
    omega

theorem applyUploads_covers (gs : Nat) (hgs : 0 < gs)
    (hist : List AncientObjectS3) :
    ∀ (fuel : Nat) (l : List AncientObjectS3) (startN : Nat)
      (gl : List (List AncientObjectS3)),
      l.length ≤ fuel →
      startN % gs = 0 →
      startN / gs ≤ gl.length →
      CoversUpTo gs gl hist startN →
      (∀ j, j < l.length → l.get? j = hist.get? (startN + j)) →
      CoversUpTo gs (applyUploads gl (buildUploadsGo gs startN fuel l)) hist
        (startN + l.length) := by
  intro fuel
  induction fuel with
  | zero =>
    intro l startN gl hle hal hgl hcov hslice
    rw [List.length_eq_zero.mp (Nat.le_zero.mp hle)] at hslice ⊢
    simpa using hcov
  | succ fuel ih =>
    intro l startN gl hle hal hgl hcov hslice
    rcases l with - | ⟨a, tl⟩
    · simpa using hcov
    have hsn : gs * (startN / gs) = startN := by
      have := Nat.div_add_mod startN gs
      omega
    have hpos : 0 < (a :: tl).length := by simp
    rw [buildUploadsGo_cons]
    by_cases hc : (a :: tl).length ≤ gs ∨ gs = 0
    · have hlegs : (a :: tl).length ≤ gs := by
        rcases hc with hlegs | h0
        · exact hlegs
        · omega
      rw [if_pos hc]
      have hkey : (startN + (a :: tl).length - 1) / gs = startN / gs := by
        rw [show startN + (a :: tl).length - 1 =
            gs * (startN / gs) + ((a :: tl).length - 1) by omega,
          Nat.mul_add_div hgs,
          Nat.div_eq_of_lt (show (a :: tl).length - 1 < gs by omega),
          Nat.add_zero]
      show CoversUpTo gs
        (setGroup gl ((startN + (a :: tl).length - 1) / gs) (a :: tl)) hist _
      rw [hkey]
      have hres := coversUpTo_setGroup_full gs hgs hist gl (startN / gs)
        (a :: tl) hlegs hgl (by rw [hsn]; exact hcov)
        (fun j hj => by rw [hsn]; exact hslice j hj)
      rw [hsn] at hres
      exact hres
    · rw [if_neg hc]
      push_neg at hc
      obtain ⟨hgtle, -⟩ := hc
      have hgt : gs < (a :: tl).length := hgtle
      have hkey : (startN + gs - 1) / gs = startN / gs := by
        rw [show startN + gs - 1 = gs * (startN / gs) + (gs - 1) by omega,
          Nat.mul_add_div hgs,
          Nat.div_eq_of_lt (show gs - 1 < gs by omega), Nat.add_zero]
      show CoversUpTo gs
        (applyUploads
          (setGroup gl ((startN + gs - 1) / gs) ((a :: tl).take gs))
          (buildUploadsGo gs (startN + gs) fuel ((a :: tl).drop gs))) hist _
      rw [hkey]
      have htlen : ((a :: tl).take gs).length = gs := by
        rw [List.length_take]
        omega
      have hgl' : CoversUpTo gs
          (setGroup gl (startN / gs) ((a :: tl).take gs)) hist
          (startN + gs) := by
        have hres := coversUpTo_setGroup_full gs hgs hist gl (startN / gs)
          ((a :: tl).take gs) (Nat.le_of_eq htlen) hgl
          (by rw [hsn]; exact hcov)
          (fun j hj => by
            rw [hsn, List.get?_take (show j < gs by omega)]
            exact hslice j (by omega))
        rw [hsn, htlen] at hres
        exact hres
      have hres := ih ((a :: tl).drop gs) (startN + gs)
        (setGroup gl (startN / gs) ((a :: tl).take gs))
        (by rw [List.length_drop]; omega)
        (by rw [Nat.add_mod_right]; exact hal)
        (by
          rw [Nat.add_div_right _ hgs, setGroup_length]
          omega)
        hgl'
        (fun j hj => by
          rw [List.get?_drop, show startN + gs + j = startN + (gs + j) by omega]
          exact hslice (gs + j) (by rw [List.length_drop] at hj; omega))
      rw [List.length_drop] at hres
      rw [show startN + (a :: tl).length = startN + gs + ((a :: tl).length - gs)
        by omega]
      exact hres

theorem inv_sync_flushed (st : FreezerState) (hist : List AncientObjectS3)
    (mk : Option Nat) (h : Inv st hist) :
    Inv { st with
          cache := st.cache.drop (st.cache.length - st.cache.length % st.objectGroupSize),
          remote := { groups := applyUploads st.remote.groups (buildUploads st.objectGroupSize (st.frozen - st.cache.length) st.cache), marker := mk } } hist := by
  have hgs := h.gsPos
  have hfl := h.frozenLen
  have hcl := h.cacheLe
  have hrle : st.cache.length % st.objectGroupSize ≤ st.cache.length :=
    Nat.mod_le _ _
  have hsub : st.cache.length - st.cache.length % st.objectGroupSize =
      st.objectGroupSize * (st.cache.length / st.objectGroupSize) := by
    have := Nat.div_add_mod st.cache.length st.objectGroupSize
    omega
  have hcov : CoversUpTo st.objectGroupSize
      (applyUploads st.remote.groups
        (buildUploads st.objectGroupSize (st.frozen - st.cache.length)
          st.cache)) hist (st.frozen - st.cache.length + st.cache.length) := by
    unfold buildUploads
    exact applyUploads_covers st.objectGroupSize hgs hist st.cache.length
      st.cache (st.frozen - st.cache.length) st.remote.groups (Nat.le_refl _)
      h.aligned h.glen h.covered
      (fun j hj => by
        conv_lhs => rw [h.cacheTail]
        rw [List.get?_drop])
  have halign' : (st.frozen - st.cache.length % st.objectGroupSize) %
      st.objectGroupSize = 0 := by
    rw [show st.frozen - st.cache.length % st.objectGroupSize =
        st.frozen - st.cache.length +
          (st.cache.length - st.cache.length % st.objectGroupSize) by omega,
      Nat.add_mod, h.aligned, hsub, Nat.mul_mod_right]
    simp
  refine ⟨hgs, hfl, ?_, ?_, ?_, ?_, ?_⟩
  · dsimp only
    rw [List.length_drop]
    omega
  · dsimp only
    rw [List.length_drop,
      show st.frozen - (st.cache.length -
        (st.cache.length - st.cache.length % st.objectGroupSize)) =
        (st.frozen - st.cache.length) +
          (st.cache.length - st.cache.length % st.objectGroupSize) by omega,
      ← List.drop_drop, ← h.cacheTail]
  · dsimp only
    rw [List.length_drop,
      show st.frozen - (st.cache.length -
        (st.cache.length - st.cache.length % st.objectGroupSize)) =
        st.frozen - st.cache.length % st.objectGroupSize by omega]
    exact halign'
  · dsimp only
    rw [List.length_drop,
      show st.frozen - (st.cache.length -
        (st.cache.length - st.cache.length % st.objectGroupSize)) =
        st.frozen - st.cache.length % st.objectGroupSize by omega]
    exact coversUpTo_glen _ hgs _ hist _ halign'
      (coversUpTo_mono _ _ hist _ _ (by omega) hcov)
  · intro n hn
    dsimp only at hn ⊢
    rw [List.length_drop] at hn
    exact hcov n (by omega)

theorem inv_sync (st : FreezerState) (hist : List AncientObjectS3)
    (fl : SyncFaults) (h : Inv st hist) : Inv (Sync st fl).1 hist := by
  unfold Sync
  by_cases hc : st.cache.length = 0
  · rw [if_pos hc]
    exact h
  · rw [if_neg hc]
    cases hub : fl.uploadFails
    · rw [if_neg (by simp)]
      cases hmb : fl.markerPutFails
      · rw [if_neg (by simp)]
        exact inv_sync_flushed st hist (some st.frozen) h
      · rw [if_pos rfl]
        exact inv_sync_flushed st hist st.remote.marker h
    · rw [if_pos rfl]
      exact h

theorem inv_trunc (st : FreezerState) (hist : List AncientObjectS3)
    (t : Nat) (st' : FreezerState) (ht : t < u64) (h : Inv st hist)
    (heq : TruncateAncients st t = (st', none)) : Inv st' (hist.take t) := by
  have hgs := h.gsPos
  have hfl := h.frozenLen
  have hcl := h.cacheLe
  simp only [TruncateAncients, objectKeyForN] at heq
  split at heq
  · -- the target falls inside the buffer range
    rename_i hbt
    split at heq
    · rename_i hidx
      simp only [Prod.mk.injEq] at heq
      obtain ⟨h1, -⟩ := heq
      subst h1
      have hi1 : t ≤ hist.length := by omega
      refine ⟨hgs, ?_, ?_, ?_, ?_, ?_, ?_⟩
      · dsimp only
        rw [List.length_take]
        omega
      · dsimp only
        rw [List.length_take]
        omega
      · dsimp only
        rw [List.length_take,
          show t - min (t - (st.frozen - st.cache.length)) st.cache.length =
            st.frozen - st.cache.length by omega,
          List.drop_take, ← h.cacheTail]
      · dsimp only
        rw [List.length_take,
          show t - min (t - (st.frozen - st.cache.length)) st.cache.length =
            st.frozen - st.cache.length by omega]
        exact h.aligned
      · dsimp only
        rw [List.length_take,
          show t - min (t - (st.frozen - st.cache.length)) st.cache.length =
            st.frozen - st.cache.length by omega]
        exact h.glen
      · intro n hn
        dsimp only at hn ⊢
        rw [List.length_take] at hn
        have hn' : n < st.frozen - st.cache.length := by omega
        obtain ⟨b, hb1, hb2, hb3⟩ := h.covered n hn'
        refine ⟨b, hb1, hb2, ?_⟩
        rw [List.get?_take (show n < t by omega)]
        exact hb3
    · simp at heq
  · -- the target is below the flushed prefix
    rename_i hbt
    split at heq
    · simp at heq
    · rename_i b hGet
      split at heq
      · rename_i hbl
        simp only [Prod.mk.injEq] at heq
        obtain ⟨h1, -⟩ := heq
        subst h1
        have htlt : t < st.frozen - st.cache.length := by omega
        have hi1 : t ≤ hist.length := by omega
        rcases Nat.eq_zero_or_pos t with rfl | htpos
        · -- t = 0 (the uint64-wrapped key download is irrelevant)
          refine ⟨hgs, ?_, ?_, ?_, ?_, ?_, ?_⟩
          · simp
          · simp
          · simp
          · simp
          · simp
          · intro n hn
            dsimp only at hn
            simp at hn
        · -- 1 <= t
          have hwrap : (t + (u64 - 1)) % u64 = t - 1 := by
            rw [show t + (u64 - 1) = (t - 1) + u64 by
              have hu : 0 < u64 := by decide
              omega]
            rw [Nat.add_mod_right,
              Nat.mod_eq_of_lt (show t - 1 < u64 by omega)]
          rw [hwrap] at hGet
          have hdm := Nat.div_add_mod t st.objectGroupSize
          have hrlt : t % st.objectGroupSize < st.objectGroupSize :=
            Nat.mod_lt _ hgs
          have hlen' : (b.take (t % st.objectGroupSize)).length =
              t % st.objectGroupSize := by
            rw [List.length_take]
            omega
          -- the surviving prefix of group t/gs holds the history records
          have hbj : ∀ j, j < t % st.objectGroupSize →
              b.get? j = hist.get? (t - t % st.objectGroupSize + j) := by
            intro j hj
            obtain ⟨b2, hb21, hb22, hb23⟩ :=
              h.covered (t - t % st.objectGroupSize + j) (by omega)
            have hdiv : (t - t % st.objectGroupSize + j) /
                st.objectGroupSize = t / st.objectGroupSize := by
              rw [show t - t % st.objectGroupSize + j =
                  st.objectGroupSize * (t / st.objectGroupSize) + j by omega,
                Nat.mul_add_div hgs,
                Nat.div_eq_of_lt (show j < st.objectGroupSize by omega),
                Nat.add_zero]
            have hmod : (t - t % st.objectGroupSize + j) %
                st.objectGroupSize = j := by
              rw [show t - t % st.objectGroupSize + j =
                  st.objectGroupSize * (t / st.objectGroupSize) + j by omega,
                Nat.mul_add_mod,
                Nat.mod_eq_of_lt (show j < st.objectGroupSize by omega)]
            have hK' : (t - 1) / st.objectGroupSize =
                t / st.objectGroupSize := by
              rw [show t - 1 = st.objectGroupSize * (t / st.objectGroupSize) +
                  (t % st.objectGroupSize - 1) by omega,
                Nat.mul_add_div hgs,
                Nat.div_eq_of_lt
                  (show t % st.objectGroupSize - 1 < st.objectGroupSize
                    by omega),
                Nat.add_zero]
            rw [hdiv] at hb21
            rw [hK'] at hGet
            rw [hGet] at hb21
            cases hb21
            rw [hmod] at hb23
            exact hb23
          have hKlen : t / st.objectGroupSize ≤ st.remote.groups.length := by
            have hlt : (t - 1) / st.objectGroupSize <
                st.remote.groups.length := by
              rcases List.get?_eq_some.mp hGet with ⟨hl, -⟩
              exact hl
            have hstep : t / st.objectGroupSize ≤
                (t - 1) / st.objectGroupSize + 1 := by
              rcases Nat.eq_zero_or_pos (t % st.objectGroupSize)
                with hr0 | hrpos
              · have hq1 : 1 ≤ t / st.objectGroupSize := by
                  rcases Nat.eq_zero_or_pos (t / st.objectGroupSize) with hh | hh
                  · rw [hh, Nat.mul_zero] at hdm
                    omega
                  · exact hh
                have hgm : st.objectGroupSize * (t / st.objectGroupSize - 1) +
                    st.objectGroupSize =
                    st.objectGroupSize * (t / st.objectGroupSize) := by
                  conv_rhs => rw [show t / st.objectGroupSize =
                    t / st.objectGroupSize - 1 + 1 by omega]
                  rw [Nat.mul_add, Nat.mul_one]
                have hdec : (t - 1) / st.objectGroupSize =
                    t / st.objectGroupSize - 1 := by
                  rw [show t - 1 = st.objectGroupSize *
                      (t / st.objectGroupSize - 1) +
                      (st.objectGroupSize - 1) by omega,
                    Nat.mul_add_div hgs,
                    Nat.div_eq_of_lt
                      (show st.objectGroupSize - 1 < st.objectGroupSize
                        by omega),
                    Nat.add_zero]
                omega
              · have hdec : (t - 1) / st.objectGroupSize =
                    t / st.objectGroupSize := by
                  rw [show t - 1 = st.objectGroupSize *
                      (t / st.objectGroupSize) +
                      (t % st.objectGroupSize - 1) by omega,
                    Nat.mul_add_div hgs,
                    Nat.div_eq_of_lt
                      (show t % st.objectGroupSize - 1 < st.objectGroupSize
                        by omega),
                    Nat.add_zero]
                omega
            omega
          have hcovN : ∀ n, n < t - t % st.objectGroupSize →
              ∃ b2, (st.remote.groups.take
                  (t / st.objectGroupSize + 1)).get?
                    (n / st.objectGroupSize) = some b2 ∧
                n % st.objectGroupSize < b2.length ∧
                b2.get? (n % st.objectGroupSize) = (hist.take t).get? n := by
            intro n hn
            obtain ⟨b2, hb21, hb22, hb23⟩ := h.covered n (by omega)
            have hndiv : n / st.objectGroupSize < t / st.objectGroupSize := by
              rw [Nat.div_lt_iff_lt_mul hgs, Nat.mul_comm]
              omega
            refine ⟨b2, ?_, hb22, ?_⟩
            · rw [List.get?_take (by omega)]
              exact hb21
            · rw [List.get?_take (show n < t by omega)]
              exact hb23
          refine ⟨hgs, ?_, ?_, ?_, ?_, ?_, ?_⟩
          · dsimp only
            rw [List.length_take]
            omega
          · dsimp only
            rw [hlen']
            omega
          · dsimp only
            rw [hlen']
            apply List.ext
            intro j
            by_cases hj : j < t % st.objectGroupSize
            · rw [List.get?_take hj, List.get?_drop,
                List.get?_take
                  (show t - t % st.objectGroupSize + j < t by omega),
                hbj j hj]
            · rw [List.get?_len_le (by rw [List.length_take]; omega),
                List.get?_len_le]
              rw [List.length_drop, List.length_take]
              omega
          · dsimp only
            rw [hlen',
              show t - t % st.objectGroupSize =
                st.objectGroupSize * (t / st.objectGroupSize) by omega,
              Nat.mul_mod_right]
          · dsimp only
            rw [hlen', List.length_take,
              show t - t % st.objectGroupSize =
                st.objectGroupSize * (t / st.objectGroupSize) by omega,
              Nat.mul_div_cancel_left _ hgs]
            omega
          · intro n hn
            dsimp only at hn ⊢
            rw [hlen'] at hn
            exact hcovN n hn
      · simp at heq

theorem reach_inv (st : FreezerState) (hist : List AncientObjectS3)
    (h : Reach st hist) : Inv st hist := by
  induction h with
  | init gs hgs => exact inv_init gs hgs
  | append st hist number b1 b2 b3 b4 b5 hr ih =>
    exact inv_append st hist number b1 b2 b3 b4 b5 ih
  | sync st hist fl hr ih => exact inv_sync st hist fl ih
  | truncOk st hist t st' ht hr heq ih => exact inv_trunc st hist t st' ht ih heq
  | read st hist kind n hr ih => exact inv_read st hist kind n ih

theorem truncate_frozen_eq (st : FreezerState) (t : Nat) (st' : FreezerState)
    (h : TruncateAncients st t = (st', none)) : st'.frozen = t := by
  simp only [TruncateAncients] at h
  split at h
  · split at h
    · simp only [Prod.mk.injEq] at h
      obtain ⟨h1, -⟩ := h
      rw [← h1]
    · simp at h
  · split at h
    · simp at h
    · split at h
      · simp only [Prod.mk.injEq] at h
        obtain ⟨h1, -⟩ := h
        rw [← h1]
      · simp at h

/-- C7: at every state reachable by any sequence of operations (appends,
syncs under any fault schedule, successful truncates, reads), the frozen
count splits as (count of fully flushed records) + (length of the write
buffer): the buffer holds exactly the history records with sequence
numbers in `[frozen - len(buffer), frozen)` and every record below
`frozen - len(buffer)` is durable on the remote.  Moreover the frozen
count changes only through `AppendAncient` (always +1, with nil error),
never through `Sync` or `Ancient`, and a successful `TruncateAncients`
sets it to the target. -/
theorem frozen_count_invariant :
    (∀ (st : FreezerState) (hist : List AncientObjectS3), Reach st hist →
      st.cache.length ≤ st.frozen ∧
      st.frozen = (st.frozen - st.cache.length) + st.cache.length ∧
      st.frozen = hist.length ∧
      st.cache = hist.drop (st.frozen - st.cache.length) ∧
      (∀ n, n < st.frozen - st.cache.length → Durable st hist n)) ∧
    (∀ (st : FreezerState) (number : Nat) (b1 b2 b3 b4 b5 : Bytes),
      (AppendAncient st number b1 b2 b3 b4 b5).1.frozen = st.frozen + 1 ∧
      (AppendAncient st number b1 b2 b3 b4 b5).2 = none) ∧
    (∀ (st : FreezerState) (fl : SyncFaults),
      (Sync st fl).1.frozen = st.frozen) ∧
    (∀ (st st' : FreezerState) (t : Nat),
      TruncateAncients st t = (st', none) → st'.frozen = t) ∧
    (∀ (st : FreezerState) (kind : Kind) (n : Nat),
      (Ancient st kind n).2.frozen = st.frozen) := by
  refine ⟨?_, ?_, ?_, ?_, ?_⟩
  · intro st hist hr
    have h := reach_inv st hist hr
    have hc := h.cacheLe
    exact ⟨h.cacheLe, by omega, h.frozenLen, h.cacheTail, h.covered⟩
  · intro st number b1 b2 b3 b4 b5
    exact ⟨rfl, rfl⟩
  · intro st fl
    unfold Sync
    by_cases hc : st.cache.length = 0
    · rw [if_pos hc]
    · rw [if_neg hc]
      cases hub : fl.uploadFails
      · rw [if_neg (by simp)]
        cases hmb : fl.markerPutFails
        · rw [if_neg (by simp)]
        · rw [if_pos rfl]
      · rw [if_pos rfl]
  · intro st st' t heq
    exact truncate_frozen_eq st t st' heq
  · intro st kind n
    obtain ⟨r, hr⟩ := ancient_state_shape st kind n
    rw [hr]

/-- C7 (witness): the invariant instantiated at the freshly constructed
freezer reached by `Reach.init`. -/
theorem frozen_count_invariant_witness :
    (emptyState 32).cache.length ≤ (emptyState 32).frozen ∧
    (emptyState 32).frozen =
      ((emptyState 32).frozen - (emptyState 32).cache.length) +
        (emptyState 32).cache.length ∧
    (emptyState 32).frozen = ([] : List AncientObjectS3).length ∧
    (emptyState 32).cache =
      ([] : List AncientObjectS3).drop
        ((emptyState 32).frozen - (emptyState 32).cache.length) ∧
    (∀ n, n < (emptyState 32).frozen - (emptyState 32).cache.length →
      Durable (emptyState 32) [] n) :=
  frozen_count_invariant.1 (emptyState 32) [] (Reach.init 32 (by decide))

end FreezerS3
